import Mathlib

/-
  Shallow embedding of the action-resolution core of the Carnival grid game
  (src/main.rs).  Walls are modelled as the list of their positions; the
  player is the Player component plus a separate Position component, exactly
  as in the source.  Bevy queries over Wall entities become traversals of the
  wall-position list, in the order the source loops run.
-/

namespace Carnival

/-- Arena width, `const ARENA_WIDTH: u32 = 20`. -/
def ARENA_WIDTH : Nat := 20

/-- Arena height, `const ARENA_HEIGHT: u32 = 20`. -/
def ARENA_HEIGHT : Nat := 20

/-- `struct Position { x: i32, y: i32 }`, equality is exact integer comparison. -/
structure Position where
  x : Int
  y : Int
deriving DecidableEq, Repr

/-- `enum Action { Idle, Move, Dig, Build }`. -/
inductive Action where
  | Idle
  | Move
  | Dig
  | Build
deriving DecidableEq, Repr

/-- `enum Direction { Up, Down, Right, Left }`. -/
inductive Direction where
  | Up
  | Down
  | Right
  | Left
deriving DecidableEq, Repr

/-- `struct Player { face_direction, action, has_rock }`. -/
structure Player where
  face_direction : Direction
  action : Action
  has_rock : Bool
deriving DecidableEq, Repr

/-- The target cell computed in every per-direction branch of the source:
Down is y-1, Up is y+1, Left is x-1, Right is x+1. -/
def target_position (pos : Position) (d : Direction) : Position :=
  match d with
  | Direction.Down => { x := pos.x, y := pos.y - 1 }
  | Direction.Up => { x := pos.x, y := pos.y + 1 }
  | Direction.Left => { x := pos.x - 1, y := pos.y }
  | Direction.Right => { x := pos.x + 1, y := pos.y }

/-- The wall-scan loop of the Move and Build arms of `validate_player_action`:
starting from the current action, overwrite with Idle on every wall that
matches the target cell. -/
def demote_on_hit (target : Position) (walls : List Position) (a : Action) : Action :=
  walls.foldl (fun acc w => if target = w then Action.Idle else acc) a

/-- The wall-scan loop of the Dig arm of `validate_player_action`: the action
is first set to Idle, then re-promoted to Dig on the first matching wall
(the source breaks out of the loop on a hit). -/
def promote_dig_on_hit (target : Position) : List Position → Action
  | [] => Action.Idle
  | w :: rest => if target = w then Action.Dig else promote_dig_on_hit target rest

/-- `validate_player_action`: inspects the player's action and demotes or
confirms it against the wall set. -/
def validate_player_action (pos : Position) (player : Player) (walls : List Position) :
    Player :=
  match player.action with
  | Action.Move =>
      { player with
          action := demote_on_hit (target_position pos player.face_direction) walls Action.Move }
  | Action.Dig =>
      { player with
          action := promote_dig_on_hit (target_position pos player.face_direction) walls }
  | Action.Build =>
      { player with
          action := demote_on_hit (target_position pos player.face_direction) walls Action.Build }
  | Action.Idle => player

/-- `player_move_action`: if the action is Move, apply the facing delta to the
position and reset the action to Idle. -/
def player_move_action (pos : Position) (player : Player) : Position × Player :=
  if player.action = Action.Move then
    (target_position pos player.face_direction, { player with action := Action.Idle })
  else
    (pos, player)

/-- `player_dig_action`: if the action is Dig, despawn every wall entity at the
target cell (the source loop despawns each match and sets `has_rock = true`
on each match), then reset the action to Idle. -/
def player_dig_action (pos : Position) (player : Player) (walls : List Position) :
    Player × List Position :=
  if player.action = Action.Dig then
    ({ player with
        has_rock := player.has_rock || walls.any (fun w => decide (w = target_position pos player.face_direction)),
        action := Action.Idle },
      walls.filter (fun w => decide (w ≠ target_position pos player.face_direction)))
  else
    (player, walls)

/-- `player_build_action`: if the action is Build, spawn a wall at the target
cell, clear `has_rock` and reset the action to Idle.  There is no check of
`has_rock` here. -/
def player_build_action (pos : Position) (player : Player) (walls : List Position) :
    Player × List Position :=
  if player.action = Action.Build then
    ({ player with has_rock := false, action := Action.Idle },
      target_position pos player.face_direction :: walls)
  else
    (player, walls)

/-- Edge signals for the five logical keys read by `player_input` (each
direction key stands for its two aliases). -/
structure KeyInput where
  key_down : Bool
  key_up : Bool
  key_right : Bool
  key_left : Bool
  key_space : Bool
deriving DecidableEq, Repr

/-- `player_input`: direction presses are processed in source order Down, Up,
Right, Left, each setting facing and Move; a Space press then sets Dig when
not carrying and Build when carrying (two consecutive ifs in the source). -/
def player_input (keys : KeyInput) (p0 : Player) : Player :=
  let p1 := if keys.key_down then
      { p0 with face_direction := Direction.Down, action := Action.Move } else p0
  let p2 := if keys.key_up then
      { p1 with face_direction := Direction.Up, action := Action.Move } else p1
  let p3 := if keys.key_right then
      { p2 with face_direction := Direction.Right, action := Action.Move } else p2
  let p4 := if keys.key_left then
      { p3 with face_direction := Direction.Left, action := Action.Move } else p3
  if keys.key_space then
    let p5 := if !p4.has_rock then { p4 with action := Action.Dig } else p4
    if p5.has_rock then { p5 with action := Action.Build } else p5
  else p4

/-- One validated tick of the action pipeline after Input Capture: Validator,
then the Move, Dig and Build executors in source order.  Returns the final
position, player and wall set. -/
def run_pipeline (pos : Position) (player : Player) (walls : List Position) :
    Position × Player × List Position :=
  let p2 := validate_player_action pos player walls
  let mv := player_move_action pos p2
  let dg := player_dig_action mv.1 mv.2 walls
  let bd := player_build_action mv.1 dg.1 dg.2
  (mv.1, bd.1, bd.2)

/-- The `boundary_positions` vector of `spawn_boundaries`: for each x in
[0, W) push (x, 0) and (x, H-1), then for each y in [1, H-1) push (0, y)
and (W-1, y). -/
def boundary_positions : List Position :=
  ((List.range ARENA_WIDTH).flatMap (fun x =>
      [{ x := (x : Int), y := 0 }, { x := (x : Int), y := (ARENA_HEIGHT : Int) - 1 }]))
  ++ ((List.range' 1 (ARENA_HEIGHT - 2)).flatMap (fun y =>
      [{ x := 0, y := (y : Int) }, { x := (ARENA_WIDTH : Int) - 1, y := (y : Int) }]))

/-- The walls actually spawned by `spawn_boundaries`: positions are popped off
the back of the vector, so walls appear in reverse push order. -/
def boundary_walls : List Position :=
  boundary_positions.reverse

/-- The outer ring of the arena as described by the specification: all (x, 0)
and (x, HEIGHT-1) for x in [0, WIDTH), and all (0, y) and (WIDTH-1, y) for
y in [1, HEIGHT-1).  Stated from the spec text, to be compared with
`boundary_walls`. -/
def ring_positions_spec : Finset Position :=
  ((Finset.range ARENA_WIDTH).image (fun (x : Nat) => { x := (x : Int), y := 0 }))
  ∪ ((Finset.range ARENA_WIDTH).image (fun (x : Nat) => { x := (x : Int), y := (ARENA_HEIGHT : Int) - 1 }))
  ∪ ((Finset.Ico 1 (ARENA_HEIGHT - 1)).image (fun (y : Nat) => { x := 0, y := (y : Int) }))
  ∪ ((Finset.Ico 1 (ARENA_HEIGHT - 1)).image (fun (y : Nat) => { x := (ARENA_WIDTH : Int) - 1, y := (y : Int) }))

/-- A cell the source's random draw can produce: `(random::<f32>() * W) as i32`
lies in [0, W), likewise for y. -/
def in_arena (p : Position) : Prop :=
  0 ≤ p.x ∧ p.x < (ARENA_WIDTH : Int) ∧ 0 ≤ p.y ∧ p.y < (ARENA_HEIGHT : Int)

instance (p : Position) : Decidable (in_arena p) := by
  unfold in_arena
  infer_instance

/-- The `'outer: loop` of `spawn_walls`, with the stream of random draws made
explicit: each draw is rejected when it coincides with a player position or
an existing wall, and the first accepted draw is returned.  `none` means the
modelled draws were exhausted with every one rejected, i.e. the source loop
is still spinning at that depth. -/
def spawn_target (players walls : List Position) : List Position → Option Position
  | [] => none
  | draw :: rest =>
      if draw ∈ players ∨ draw ∈ walls then spawn_target players walls rest
      else some draw

/-- The effect of one `spawn_walls` invocation on the wall set, given the
draw stream: spawn a wall at the first accepted draw. -/
def spawn_walls (players walls : List Position) (draws : List Position) : List Position :=
  match spawn_target players walls draws with
  | some q => q :: walls
  | none => walls

/-- Every in-arena cell, for saturating the board. -/
def all_cells : List Position :=
  (List.range ARENA_WIDTH).flatMap (fun x =>
    (List.range ARENA_HEIGHT).map (fun y => { x := (x : Int), y := (y : Int) }))

/-- The world state the core mutates: the player's Position component, the
Player component, and the wall set. -/
structure GameState where
  player_pos : Position
  player : Player
  walls : List Position
deriving Repr

/-- `spawn_player`: position (1, 1), Idle, facing Up, not carrying. -/
def initial_player : Player :=
  { face_direction := Direction.Up, action := Action.Idle, has_rock := false }

/-- The state after the startup systems `spawn_player` and `spawn_boundaries`. -/
def initial_state : GameState :=
  { player_pos := { x := 1, y := 1 }, player := initial_player, walls := boundary_walls }

/-- One full tick: Input Capture followed by the validated pipeline. -/
def tick (keys : KeyInput) (s : GameState) : GameState :=
  let res := run_pipeline s.player_pos (player_input keys s.player) s.walls
  { player_pos := res.1, player := res.2.1, walls := res.2.2 }

/-- States reachable from startup by any sequence of ticks (under any key
input) and `spawn_walls` invocations (under any draw stream). -/
inductive Reachable : GameState → Prop where
  | startup : Reachable initial_state
  | step_tick : ∀ (s : GameState) (keys : KeyInput),
      Reachable s → Reachable (tick keys s)
  | step_spawn : ∀ (s : GameState) (draws : List Position),
      Reachable s →
      Reachable { s with walls := spawn_walls [s.player_pos] s.walls draws }

theorem demote_on_hit_eq (target : Position) (walls : List Position) (a : Action) :
    demote_on_hit target walls a = if target ∈ walls then Action.Idle else a := by
  induction walls generalizing a with
  | nil => simp [demote_on_hit]
  | cons w ws ih =>
      show demote_on_hit target ws (if target = w then Action.Idle else a)
        = if target ∈ w :: ws then Action.Idle else a
      rw [ih]
      by_cases hw : target = w <;> by_cases hm : target ∈ ws <;> simp [hw, hm]

theorem promote_dig_on_hit_eq (target : Position) (walls : List Position) :
    promote_dig_on_hit target walls = if target ∈ walls then Action.Dig else Action.Idle := by
  induction walls with
  | nil => simp [promote_dig_on_hit]
  | cons w ws ih =>
      by_cases hw : target = w <;> simp [promote_dig_on_hit, hw, ih]

theorem validate_keeps_fields (pos : Position) (p : Player) (walls : List Position) :
    (validate_player_action pos p walls).face_direction = p.face_direction ∧
    (validate_player_action pos p walls).has_rock = p.has_rock := by
  cases h : p.action <;> simp [validate_player_action, h]

theorem validate_action_idle (pos : Position) (p : Player) (walls : List Position)
    (h : p.action = Action.Idle) : validate_player_action pos p walls = p := by
  simp [validate_player_action, h]

theorem validate_action_move (pos : Position) (p : Player) (walls : List Position)
    (h : p.action = Action.Move) :
    validate_player_action pos p walls =
      { p with action := if target_position pos p.face_direction ∈ walls
          then Action.Idle else Action.Move } := by
  simp [validate_player_action, h, demote_on_hit_eq]

theorem validate_action_dig (pos : Position) (p : Player) (walls : List Position)
    (h : p.action = Action.Dig) :
    validate_player_action pos p walls =
      { p with action := if target_position pos p.face_direction ∈ walls
          then Action.Dig else Action.Idle } := by
  simp [validate_player_action, h, promote_dig_on_hit_eq]

theorem validate_action_build (pos : Position) (p : Player) (walls : List Position)
    (h : p.action = Action.Build) :
    validate_player_action pos p walls =
      { p with action := if target_position pos p.face_direction ∈ walls
          then Action.Idle else Action.Build } := by
  simp [validate_player_action, h, demote_on_hit_eq]

theorem validate_build_free (pos : Position) (p : Player) (walls : List Position)
    (h : (validate_player_action pos p walls).action = Action.Build) :
    target_position pos p.face_direction ∉ walls := by
  intro hm
  cases ha : p.action with
  | Idle =>
      rw [validate_action_idle pos p walls ha, ha] at h
      exact Action.noConfusion h
  | Move =>
      rw [validate_action_move pos p walls ha] at h
      simp [hm] at h
  | Dig =>
      rw [validate_action_dig pos p walls ha] at h
      simp [hm] at h
  | Build =>
      rw [validate_action_build pos p walls ha] at h
      simp [hm] at h

theorem run_pipeline_walls_eq (pos : Position) (p : Player) (walls : List Position) :
    (run_pipeline pos p walls).2.2 =
      match (validate_player_action pos p walls).action with
      | Action.Dig => walls.filter (fun w => decide (w ≠ target_position pos p.face_direction))
      | Action.Build => target_position pos p.face_direction :: walls
      | _ => walls := by
  have hfd := (validate_keeps_fields pos p walls).1
  cases h2 : (validate_player_action pos p walls).action <;>
    simp [run_pipeline, player_move_action, player_dig_action, player_build_action, h2, hfd]

theorem run_pipeline_move_free (pos : Position) (d : Direction) (b : Bool)
    (walls : List Position) (h : target_position pos d ∉ walls) :
    run_pipeline pos { face_direction := d, action := Action.Move, has_rock := b } walls
      = (target_position pos d,
          { face_direction := d, action := Action.Idle, has_rock := b }, walls) := by
  have hv := validate_action_move pos
    { face_direction := d, action := Action.Move, has_rock := b } walls rfl
  simp only [h, if_neg, ite_false] at hv
  simp [run_pipeline, hv, player_move_action, player_dig_action, player_build_action]

theorem run_pipeline_dig_hit (pos : Position) (d : Direction) (b : Bool)
    (walls : List Position) (h : target_position pos d ∈ walls) :
    run_pipeline pos { face_direction := d, action := Action.Dig, has_rock := b } walls
      = (pos, { face_direction := d, action := Action.Idle, has_rock := true },
          walls.filter (fun w => decide (w ≠ target_position pos d))) := by
  have hv := validate_action_dig pos
    { face_direction := d, action := Action.Dig, has_rock := b } walls rfl
  simp only [h, if_pos, ite_true] at hv
  have hany : walls.any (fun w => decide (w = target_position pos d)) = true := by
    simp only [List.any_eq_true, decide_eq_true_eq]
    exact ⟨target_position pos d, h, rfl⟩
  simp [run_pipeline, hv, player_move_action, player_dig_action, player_build_action, hany]

theorem run_pipeline_dig_miss (pos : Position) (d : Direction) (b : Bool)
    (walls : List Position) (h : target_position pos d ∉ walls) :
    run_pipeline pos { face_direction := d, action := Action.Dig, has_rock := b } walls
      = (pos, { face_direction := d, action := Action.Idle, has_rock := b }, walls) := by
  have hv := validate_action_dig pos
    { face_direction := d, action := Action.Dig, has_rock := b } walls rfl
  simp only [h, if_neg, ite_false] at hv
  simp [run_pipeline, hv, player_move_action, player_dig_action, player_build_action]

theorem run_pipeline_build_free (pos : Position) (d : Direction) (b : Bool)
    (walls : List Position) (h : target_position pos d ∉ walls) :
    run_pipeline pos { face_direction := d, action := Action.Build, has_rock := b } walls
      = (pos, { face_direction := d, action := Action.Idle, has_rock := false },
          target_position pos d :: walls) := by
  have hv := validate_action_build pos
    { face_direction := d, action := Action.Build, has_rock := b } walls rfl
  simp only [h, if_neg, ite_false] at hv
  simp [run_pipeline, hv, player_move_action, player_dig_action, player_build_action]

theorem spawn_target_not_occupied (players walls draws : List Position) (q : Position)
    (h : spawn_target players walls draws = some q) : q ∉ players ∧ q ∉ walls := by
  induction draws with
  | nil => exact Option.noConfusion h
  | cons dr rest ih =>
      by_cases hc : dr ∈ players ∨ dr ∈ walls
      · simp only [spawn_target, if_pos hc] at h
        exact ih h
      · simp only [spawn_target, if_neg hc, Option.some.injEq] at h
        subst h
        push_neg at hc
        exact hc

theorem spawn_preserves_nodup (players walls draws : List Position)
    (hnd : walls.Nodup) : (spawn_walls players walls draws).Nodup := by
  cases hsp : spawn_target players walls draws with
  | none => simpa [spawn_walls, hsp]
  | some q =>
      have hq := spawn_target_not_occupied players walls draws q hsp
      simp [spawn_walls, hsp, List.nodup_cons, hq.2, hnd]

theorem run_pipeline_walls_nodup (pos : Position) (p : Player) (walls : List Position)
    (hnd : walls.Nodup) : (run_pipeline pos p walls).2.2.Nodup := by
  rw [run_pipeline_walls_eq]
  cases h2 : (validate_player_action pos p walls).action with
  | Idle => exact hnd
  | Move => exact hnd
  | Dig => exact hnd.filter _
  | Build => exact List.nodup_cons.mpr ⟨validate_build_free pos p walls h2, hnd⟩

theorem tick_preserves_nodup (keys : KeyInput) (s : GameState)
    (hnd : s.walls.Nodup) : (tick keys s).walls.Nodup :=
  run_pipeline_walls_nodup s.player_pos (player_input keys s.player) s.walls hnd

theorem cons_filter_ne_perm (t : Position) (l : List Position)
    (hmem : t ∈ l) (hnd : l.Nodup) :
    List.Perm (t :: l.filter (fun w => decide (w ≠ t))) l := by
  induction l with
  | nil => cases hmem
  | cons a rest ih =>
      have hnd' := List.nodup_cons.mp hnd
      rcases List.mem_cons.mp hmem with h | h
      · subst h
        have hfl : rest.filter (fun w => !decide (w = t)) = rest := by
          apply List.filter_eq_self.mpr
          intro w hw
          have hwt : w ≠ t := fun he => hnd'.1 (he ▸ hw)
          simpa using hwt
        simp [List.filter_cons, hfl]
      · have hat : a ≠ t := fun hat => hnd'.1 (hat ▸ h)
        have hstep : List.Perm (t :: a :: rest.filter (fun w => decide (w ≠ t)))
            (a :: rest) :=
          (List.Perm.swap a t (rest.filter (fun w => decide (w ≠ t)))).trans
            (List.Perm.cons a (ih h hnd'.2))
        simpa [List.filter_cons, hat] using hstep

theorem in_arena_mem_all_cells (p : Position) (h : in_arena p) : p ∈ all_cells := by
  obtain ⟨x, y⟩ := p
  simp only [in_arena, ARENA_WIDTH, ARENA_HEIGHT] at h
  obtain ⟨hx0, hxw, hy0, hyh⟩ := h
  have hx : ((x.toNat : Int)) = x := by omega
  have hy : ((y.toNat : Int)) = y := by omega
  have hc : Position.mk ((x.toNat : Nat) : Int) ((y.toNat : Nat) : Int) ∈ all_cells :=
    List.mem_flatMap.mpr
      ⟨x.toNat, List.mem_range.mpr (by show x.toNat < 20; omega),
        List.mem_map_of_mem
          (fun (b : Nat) => ({ x := ((x.toNat : Nat) : Int), y := ((b : Nat) : Int) } : Position))
          (List.mem_range.mpr (by show y.toNat < 20; omega))⟩
  rw [hx, hy] at hc
  exact hc

/-- C1: a Move action is demoted to Idle by the validator iff a Wall occupies
the target cell (position plus facing delta); when the target is free, Move
survives validation and the pipeline moves the player exactly to the target
cell, leaving the wall set unchanged. -/
theorem move_demoted_iff_wall_at_target (pos : Position) (d : Direction) (b : Bool)
    (walls : List Position) :
    ((validate_player_action pos
        { face_direction := d, action := Action.Move, has_rock := b } walls).action
          = Action.Idle
      ↔ target_position pos d ∈ walls)
    ∧ ((validate_player_action pos
        { face_direction := d, action := Action.Move, has_rock := b } walls).action
          = Action.Move
      ↔ target_position pos d ∉ walls)
    ∧ (target_position pos d ∉ walls →
        run_pipeline pos { face_direction := d, action := Action.Move, has_rock := b } walls
          = (target_position pos d,
              { face_direction := d, action := Action.Idle, has_rock := b }, walls)) := by
  have hv := validate_action_move pos
    { face_direction := d, action := Action.Move, has_rock := b } walls rfl
  refine ⟨?_, ?_, run_pipeline_move_free pos d b walls⟩ <;>
    by_cases hm : target_position pos d ∈ walls <;> simp [hv, hm]

theorem move_demoted_iff_wall_at_target_witness :
    run_pipeline { x := 5, y := 5 }
        { face_direction := Direction.Up, action := Action.Move, has_rock := false } []
      = ({ x := 5, y := 6 },
          { face_direction := Direction.Up, action := Action.Idle, has_rock := false }, []) :=
  (move_demoted_iff_wall_at_target { x := 5, y := 5 } Direction.Up false []).2.2 (by decide)

/-- C2: a Dig action survives the validator iff a Wall exists at the target
cell; when it survives, the pipeline removes the wall at that cell and sets
carrying to true; when no Wall is at the target the action is forced to Idle
and the pipeline changes neither the wall set nor carrying. -/
theorem dig_survives_iff_wall_at_target (pos : Position) (d : Direction) (b : Bool)
    (walls : List Position) :
    ((validate_player_action pos
        { face_direction := d, action := Action.Dig, has_rock := b } walls).action
          = Action.Dig
      ↔ target_position pos d ∈ walls)
    ∧ ((validate_player_action pos
        { face_direction := d, action := Action.Dig, has_rock := b } walls).action
          = Action.Idle
      ↔ target_position pos d ∉ walls)
    ∧ (target_position pos d ∈ walls →
        run_pipeline pos { face_direction := d, action := Action.Dig, has_rock := b } walls
          = (pos, { face_direction := d, action := Action.Idle, has_rock := true },
              walls.filter (fun w => decide (w ≠ target_position pos d))))
    ∧ (target_position pos d ∉ walls →
        run_pipeline pos { face_direction := d, action := Action.Dig, has_rock := b } walls
          = (pos, { face_direction := d, action := Action.Idle, has_rock := b }, walls)) := by
  have hv := validate_action_dig pos
    { face_direction := d, action := Action.Dig, has_rock := b } walls rfl
  refine ⟨?_, ?_, run_pipeline_dig_hit pos d b walls, run_pipeline_dig_miss pos d b walls⟩ <;>
    by_cases hm : target_position pos d ∈ walls <;> simp [hv, hm]

theorem dig_survives_iff_wall_at_target_witness :
    run_pipeline { x := 5, y := 5 }
        { face_direction := Direction.Right, action := Action.Dig, has_rock := false }
        [{ x := 6, y := 5 }]
      = ({ x := 5, y := 5 },
          { face_direction := Direction.Right, action := Action.Idle, has_rock := true }, []) :=
  (dig_survives_iff_wall_at_target { x := 5, y := 5 } Direction.Right false
    [{ x := 6, y := 5 }]).2.2.1 (by decide)

/-- C3: a Build action (with carrying true) is demoted to Idle by the validator
iff a Wall occupies the target cell; when the target is free, Build survives
and the pipeline creates a new Wall at exactly that cell, clears carrying,
and leaves the player's position unchanged. -/
theorem build_demoted_iff_wall_at_target (pos : Position) (d : Direction)
    (walls : List Position) :
    ((validate_player_action pos
        { face_direction := d, action := Action.Build, has_rock := true } walls).action
          = Action.Idle
      ↔ target_position pos d ∈ walls)
    ∧ ((validate_player_action pos
        { face_direction := d, action := Action.Build, has_rock := true } walls).action
          = Action.Build
      ↔ target_position pos d ∉ walls)
    ∧ (target_position pos d ∉ walls →
        run_pipeline pos { face_direction := d, action := Action.Build, has_rock := true } walls
          = (pos, { face_direction := d, action := Action.Idle, has_rock := false },
              target_position pos d :: walls)) := by
  have hv := validate_action_build pos
    { face_direction := d, action := Action.Build, has_rock := true } walls rfl
  refine ⟨?_, ?_, run_pipeline_build_free pos d true walls⟩ <;>
    by_cases hm : target_position pos d ∈ walls <;> simp [hv, hm]

theorem build_demoted_iff_wall_at_target_witness :
    run_pipeline { x := 5, y := 5 }
        { face_direction := Direction.Down, action := Action.Build, has_rock := true } []
      = ({ x := 5, y := 5 },
          { face_direction := Direction.Down, action := Action.Idle, has_rock := false },
          [{ x := 5, y := 4 }]) :=
  (build_demoted_iff_wall_at_target { x := 5, y := 5 } Direction.Down []).2.2 (by decide)

/-- C4: the claim says the spawner's rejection-sampling loop is bounded by an
iteration cap and degrades to a no-op spawn on a saturated board.  The source
loop has no cap: on a board where every in-arena cell is occupied, every
in-arena draw is rejected, so the loop never returns no matter how many draws
are consumed. -/
theorem spawner_saturated_rejects_every_draw (draws : List Position)
    (hdraws : ∀ d ∈ draws, in_arena d) :
    spawn_target [initial_state.player_pos] all_cells draws = none := by
  induction draws with
  | nil => rfl
  | cons dr rest ih =>
      have hmem : dr ∈ all_cells := in_arena_mem_all_cells dr (hdraws dr (by simp))
      rw [spawn_target, if_pos (Or.inr hmem)]
      exact ih (fun d hd => hdraws d (by simp [hd]))

theorem spawner_saturated_rejects_every_draw_witness :
    spawn_target [initial_state.player_pos] all_cells
        [{ x := 0, y := 0 }, { x := 7, y := 12 }] = none :=
  spawner_saturated_rejects_every_draw [{ x := 0, y := 0 }, { x := 7, y := 12 }] (by decide)

/-- C5: in every state reachable from startup by any sequence of ticks and
spawner invocations, no two Wall entities share the same Position: wall
positions stay duplicate-free under the Boundary Generator's initial walls,
every tick (Validator plus Move, Dig and Build executors) and every
`spawn_walls` invocation. -/
theorem reachable_wall_positions_unique (s : GameState) (h : Reachable s) :
    s.walls.Nodup := by
  induction h with
  | startup => decide
  | step_tick s keys hr ih => exact tick_preserves_nodup keys s ih
  | step_spawn s draws hr ih => exact spawn_preserves_nodup [s.player_pos] s.walls draws ih

theorem reachable_wall_positions_unique_witness : initial_state.walls.Nodup :=
  reachable_wall_positions_unique initial_state Reachable.startup

set_option maxRecDepth 10000 in
/-- C6: the Boundary Generator creates exactly 2*ARENA_WIDTH +
2*(ARENA_HEIGHT-2) walls, with no duplicate positions, and their position set
is precisely the outer ring of the arena described in the spec (hence no
interior cells). -/
theorem boundary_walls_exact_ring :
    boundary_walls.length = 2 * ARENA_WIDTH + 2 * (ARENA_HEIGHT - 2)
    ∧ boundary_walls.Nodup
    ∧ boundary_walls.toFinset = ring_positions_spec :=
  ⟨by decide, by decide, by decide⟩

/-- C7: whenever a `spawn_walls` invocation creates a Wall (the rejection
sampling accepts a draw), the accepted cell is occupied neither by any player
position nor by any wall existing at the start of the invocation, for every
draw stream and every pre-invocation state. -/
theorem spawner_avoids_player_and_walls (players walls draws : List Position) (q : Position)
    (h : spawn_target players walls draws = some q) :
    q ∉ players ∧ q ∉ walls ∧ spawn_walls players walls draws = q :: walls := by
  obtain ⟨h1, h2⟩ := spawn_target_not_occupied players walls draws q h
  exact ⟨h1, h2, by simp [spawn_walls, h]⟩

theorem spawner_avoids_player_and_walls_witness :
    ({ x := 3, y := 3 } : Position) ∉ ([{ x := 1, y := 1 }] : List Position)
    ∧ ({ x := 3, y := 3 } : Position) ∉ ([{ x := 2, y := 2 }] : List Position)
    ∧ spawn_walls [{ x := 1, y := 1 }] [{ x := 2, y := 2 }] [{ x := 3, y := 3 }]
        = [{ x := 3, y := 3 }, { x := 2, y := 2 }] :=
  spawner_avoids_player_and_walls [{ x := 1, y := 1 }] [{ x := 2, y := 2 }]
    [{ x := 3, y := 3 }] { x := 3, y := 3 } (by decide)

/-- C8: the validator is idempotent, for every input either leaves the action
unchanged or sets it to Idle, and never upgrades Idle to anything. -/
theorem validator_idempotent_and_demoting (pos : Position) (p : Player)
    (walls : List Position) :
    validate_player_action pos (validate_player_action pos p walls) walls
        = validate_player_action pos p walls
    ∧ ((validate_player_action pos p walls).action = p.action
        ∨ (validate_player_action pos p walls).action = Action.Idle)
    ∧ (p.action = Action.Idle → validate_player_action pos p walls = p) := by
  obtain ⟨fd, pa, hr⟩ := p
  by_cases hm : target_position pos fd ∈ walls <;> cases pa <;>
    simp [validate_player_action, demote_on_hit_eq, promote_dig_on_hit_eq, hm]

theorem validator_idempotent_and_demoting_witness :
    validate_player_action { x := 2, y := 2 }
        { face_direction := Direction.Up, action := Action.Idle, has_rock := false } []
      = { face_direction := Direction.Up, action := Action.Idle, has_rock := false } :=
  (validator_idempotent_and_demoting { x := 2, y := 2 }
    { face_direction := Direction.Up, action := Action.Idle, has_rock := false } []).2.2 rfl

/-- C9: with a wall at the facing-adjacent cell and carrying = false, a
validated Dig tick followed by a validated Build tick in the same facing
direction (no other actions or spawns in between) restores the original wall
set (same multiset of positions), with carrying going false → true → false
and the player's position unchanged. -/
theorem dig_then_build_round_trip (pos : Position) (d : Direction) (walls : List Position)
    (hmem : target_position pos d ∈ walls) (hnd : walls.Nodup) :
    run_pipeline pos { face_direction := d, action := Action.Dig, has_rock := false } walls
      = (pos, { face_direction := d, action := Action.Idle, has_rock := true },
          walls.filter (fun w => decide (w ≠ target_position pos d)))
    ∧ run_pipeline pos { face_direction := d, action := Action.Build, has_rock := true }
        (walls.filter (fun w => decide (w ≠ target_position pos d)))
      = (pos, { face_direction := d, action := Action.Idle, has_rock := false },
          target_position pos d
            :: walls.filter (fun w => decide (w ≠ target_position pos d)))
    ∧ List.Perm
        (target_position pos d :: walls.filter (fun w => decide (w ≠ target_position pos d)))
        walls := by
  have hnotmem : target_position pos d
      ∉ walls.filter (fun w => decide (w ≠ target_position pos d)) := by
    simp [List.mem_filter]
  exact ⟨run_pipeline_dig_hit pos d false walls hmem,
    run_pipeline_build_free pos d true _ hnotmem,
    cons_filter_ne_perm (target_position pos d) walls hmem hnd⟩

theorem dig_then_build_round_trip_witness :
    List.Perm
      (target_position { x := 5, y := 5 } Direction.Right
        :: ([{ x := 6, y := 5 }] : List Position).filter
            (fun w => decide (w ≠ target_position { x := 5, y := 5 } Direction.Right)))
      [{ x := 6, y := 5 }] :=
  (dig_then_build_round_trip { x := 5, y := 5 } Direction.Right [{ x := 6, y := 5 }]
    (by decide) (by decide)).2.2

/-- C10: the Build executor creates a Wall at the facing-adjacent cell and
clears carrying no matter what carrying currently is (it performs no check of
`has_rock`); only Input Capture gates Build behind carrying: a Space press
yields Build exactly when carrying, Dig otherwise. -/
theorem build_executor_ignores_carrying (pos : Position) (d : Direction) (c : Bool)
    (walls : List Position) :
    player_build_action pos { face_direction := d, action := Action.Build, has_rock := c } walls
      = ({ face_direction := d, action := Action.Idle, has_rock := false },
          target_position pos d :: walls)
    ∧ (∀ p : Player,
        (player_input
          { key_down := false, key_up := false, key_right := false, key_left := false,
            key_space := true } p).action
          = if p.has_rock then Action.Build else Action.Dig) := by
  constructor
  · simp [player_build_action]
  · intro p
    obtain ⟨fd, pa, hr⟩ := p
    cases hr <;> simp [player_input]

end Carnival
